import Mathlib

/-!
Shallow embedding of `scripts/download_mods.py` (mclab repository).

The script synchronizes a local mods directory against a `manifest.json`:
it builds a dictionary `mods_in_manifest : file name ↦ (projectID, fileID)`
from the manifest's `files` list, deletes `.jar` files in the directory that
are not keys of this dictionary, and downloads each missing desired file via
the CurseForge resolution API.

Modelling conventions:
* JSON field values that participate in Python truthiness tests are an
  inductive `JVal` (null / int / string); `dict.get` of a missing key gives
  `jnull` (Python `None`).
* The mods directory is an association list `name ↦ contents`.
* The environment (`Env`) supplies everything external: the result of
  loading the manifest, whether each `os.remove` succeeds, and the outcome of
  the two HTTP requests per entry (URL resolution, streamed download).
  A streamed download can fail before any byte is written (`errBefore`) or
  mid-stream, leaving the bytes written so far on disk (`errMid`).
* `run` returns the final filesystem state together with the list of HTTP
  requests that were issued, in order.
-/

/-- Python `str.lower()` (ASCII case folding), character by character. -/
def pyLower (s : String) : String := String.mk (s.data.map Char.toLower)

/-- Python `str.endswith(suf)`. -/
def pyEndsWith (s suf : String) : Bool := List.isSuffixOf suf.data s.data

/-- Python `str.startswith(pre)`. -/
def pyStartsWith (s pre : String) : Bool := List.isPrefixOf pre.data s.data

/-- Python `str.strip()`: drop leading and trailing whitespace. -/
def pyStrip (s : String) : String :=
  String.mk (((s.data.dropWhile Char.isWhitespace).reverse.dropWhile Char.isWhitespace).reverse)

/-- A JSON scalar value as it participates in the script's truthiness tests. -/
inductive JVal where
  | jnull
  | jint (n : Int)
  | jstr (s : String)
deriving Repr, DecidableEq

/-- Python truthiness: `None`, `0` and `""` are falsy. -/
def JVal.truthy : JVal → Bool
  | .jnull => false
  | .jint n => n != 0
  | .jstr s => s != ""

/-- Python `str()` of a value, as used inside the f-string at line 40. -/
def JVal.pyStr : JVal → String
  | .jnull => "None"
  | .jint n => toString n
  | .jstr s => s

/-- `dict.get(key)`: a missing key yields `None`. -/
def jget : Option JVal → JVal
  | some v => v
  | none => .jnull

/-- Python `a or b`: the first operand when truthy, otherwise the second. -/
def pyOr (a b : JVal) : JVal := if a.truthy then a else b

/-- One entry of the manifest's `files` list: the five keys the script reads.
A key that is absent from the JSON object is `none`. -/
structure ModEntry where
  projectID : Option JVal := none
  projectId : Option JVal := none
  fileID : Option JVal := none
  fileId : Option JVal := none
  fileName : Option String := none
deriving Repr, DecidableEq

/-- Line 37: `project_id = mod.get("projectID") or mod.get("projectId")`. -/
def ModEntry.pid (e : ModEntry) : JVal := pyOr (jget e.projectID) (jget e.projectId)

/-- Line 38: `file_id = mod.get("fileID") or mod.get("fileId")`. -/
def ModEntry.fid (e : ModEntry) : JVal := pyOr (jget e.fileID) (jget e.fileId)

/-- Line 40: `file_name = mod.get("fileName") or f"{project_id}-{file_id}.jar"`;
an absent or empty `fileName` is falsy, so the synthesized name is used. -/
def ModEntry.resolvedName (e : ModEntry) : String :=
  match e.fileName with
  | some s => if s = "" then e.pid.pyStr ++ "-" ++ e.fid.pyStr ++ ".jar" else s
  | none => e.pid.pyStr ++ "-" ++ e.fid.pyStr ++ ".jar"

/-- Association-list lookup keyed on the first component; the model of both
Python `dict` lookup and of reading a file's contents from the directory. -/
def dlookup {α : Type} (k : String) : List (String × α) → Option α
  | [] => none
  | (k', v) :: rest => if k' = k then some v else dlookup k rest

/-- Python `dict` assignment `d[k] = v`: an existing key keeps its position
and gets the new value; a new key is appended. -/
def dictInsert {α : Type} (k : String) (v : α) : List (String × α) → List (String × α)
  | [] => [(k, v)]
  | (k', v') :: rest => if k' = k then (k, v) :: rest else (k', v') :: dictInsert k v rest

/-- Lines 35-47: fold the manifest entries into `mods_in_manifest`, skipping
entries whose resolved `project_id` or `file_id` is falsy. -/
def buildModsAux : List ModEntry → List (String × JVal × JVal) → List (String × JVal × JVal)
  | [], acc => acc
  | e :: rest, acc =>
    if e.pid.truthy && e.fid.truthy then
      buildModsAux rest (dictInsert e.resolvedName (e.pid, e.fid) acc)
    else
      buildModsAux rest acc

/-- The desired-set mapping built from the manifest's `files` list. -/
def buildMods (es : List ModEntry) : List (String × JVal × JVal) := buildModsAux es []

/-- The mods directory: file name ↦ file contents. -/
abbrev Dir := List (String × String)

/-- `os.remove`: drop the file with the given name. -/
def removeFile (d : Dir) (n : String) : Dir := d.filter (fun p => p.1 ≠ n)

/-- `open(path, "wb")` followed by writing `c`: truncate-create the file. -/
def writeFile (d : Dir) (n : String) (c : String) : Dir := removeFile d n ++ [(n, c)]

/-- Outcome of the URL-resolution request (line 76): a network-level
exception, or an HTTP response with a status code and a text body. -/
inductive ResolveResp where
  | netErr
  | resp (status : Nat) (body : String)
deriving Repr, DecidableEq

/-- Outcome of the streamed download (lines 88-93): full content written,
a failure before any byte reaches disk (connection error, non-2xx raised by
`raise_for_status`, `open` failure), or a mid-stream failure that leaves the
bytes written so far on disk. -/
inductive FetchResp where
  | ok (content : String)
  | errBefore
  | errMid (written : String)
deriving Repr, DecidableEq

/-- The parsed manifest: whether the top-level `files` key is present, and
the entry list under it. -/
structure ManifestDoc where
  hasFilesKey : Bool
  files : List ModEntry
deriving Repr, DecidableEq

/-- Everything external to the script: the result of loading the manifest
(`none` = unreadable or invalid JSON), whether each `os.remove` succeeds,
and the two HTTP outcomes for each desired entry (keyed by the entry's file
name and identifier pair, which determine the request URLs). -/
structure Env where
  manifest : Option ManifestDoc
  removeOk : String → Bool
  resolve : String → JVal → JVal → ResolveResp
  fetch : String → FetchResp

/-- An HTTP request issued by the script, recorded for the run log. -/
inductive Event where
  | resolveReq (name : String) (pid fid : JVal)
  | downloadReq (name : String) (url : String)
deriving Repr, DecidableEq

/-- The file name a request concerns. -/
def Event.name : Event → String
  | .resolveReq n _ _ => n
  | .downloadReq n _ => n

/-- Line 52: the snapshot of `.jar`-named files (case-insensitive suffix
test) taken before any deletion. -/
def jarSnapshot (d : Dir) : List String :=
  (d.map (fun p => p.1)).filter (fun n => pyEndsWith (pyLower n) ".jar")

/-- Lines 55-62: walk the snapshot; a name that is not a key of the mapping
has `os.remove` attempted, and a removal failure is caught and skipped. -/
def pruneList (env : Env) (mods : List (String × JVal × JVal)) :
    List String → Dir → Dir
  | [], d => d
  | f :: rest, d =>
    if (dlookup f mods).isSome then
      pruneList env mods rest d
    else if env.removeOk f then
      pruneList env mods rest (removeFile d f)
    else
      pruneList env mods rest d

/-- The whole prune pass over the directory. -/
def prune (env : Env) (mods : List (String × JVal × JVal)) (d : Dir) : Dir :=
  pruneList env mods (jarSnapshot d) d

/-- Lines 65-96, one entry: skip it when the file exists; otherwise resolve
the download URL and, when the response has status 200 and its trimmed body
starts with `http`, perform the streamed download. Every failure is caught.
Returns the updated directory and the HTTP requests issued. -/
def fetchOne (env : Env) (d : Dir) (n : String) (p f : JVal) : Dir × List Event :=
  if (dlookup n d).isSome then
    (d, [])
  else
    match env.resolve n p f with
    | .netErr => (d, [.resolveReq n p f])
    | .resp status body =>
      if status ≠ 200 then
        (d, [.resolveReq n p f])
      else
        let url := pyStrip body
        if ¬ pyStartsWith url "http" then
          (d, [.resolveReq n p f])
        else
          match env.fetch n with
          | .ok c => (writeFile d n c, [.resolveReq n p f, .downloadReq n url])
          | .errBefore => (d, [.resolveReq n p f, .downloadReq n url])
          | .errMid w => (writeFile d n w, [.resolveReq n p f, .downloadReq n url])

/-- Lines 65-96: iterate `mods_in_manifest.items()` in insertion order,
threading the directory state (the existence check at line 67 observes
files written earlier in the loop). -/
def fetchAll (env : Env) : List (String × JVal × JVal) → Dir → Dir × List Event
  | [], d => (d, [])
  | (n, p, f) :: rest, d =>
    let step := fetchOne env d n p f
    let next := fetchAll env rest step.1
    (next.1, step.2 ++ next.2)

/-- The filesystem state the script touches: whether the mods directory
exists, and its contents. -/
structure FS where
  dirExists : Bool
  dir : Dir

/-- Result of a run: final filesystem state and the HTTP requests issued. -/
structure RunResult where
  fs : FS
  events : List Event

/-- The whole of `main()`: `os.makedirs(..., exist_ok=True)` first, then
manifest load (early return on failure), the `files`-key check (early
return when absent), the mapping build, the prune pass, and the fetch
loop. -/
def run (env : Env) (fs0 : FS) : RunResult :=
  let d0 : Dir := if fs0.dirExists then fs0.dir else []
  match env.manifest with
  | none => { fs := { dirExists := true, dir := d0 }, events := [] }
  | some m =>
    if m.hasFilesKey = false then
      { fs := { dirExists := true, dir := d0 }, events := [] }
    else
      let mods := buildMods m.files
      let d1 := prune env mods d0
      let res := fetchAll env mods d1
      { fs := { dirExists := true, dir := res.1 }, events := res.2 }

/-- The URL-resolution outcome allows the streamed download: status 200 and
a trimmed body starting with the scheme marker `http`. -/
def resolvesToUrl (env : Env) (n : String) (p f : JVal) : Bool :=
  match env.resolve n p f with
  | .netErr => false
  | .resp status body => status == 200 && pyStartsWith (pyStrip body) "http"

/-- The whole fetch pipeline for a missing entry succeeds: resolution allows
the download and the streamed transfer completes. -/
def fetchOk (env : Env) (n : String) (p f : JVal) : Bool :=
  resolvesToUrl env n p f &&
    (match env.fetch n with
     | .ok _ => true
     | _ => false)

/-- The fetch pipeline for a missing entry writes something to disk (a full
download, or the portion transferred before a mid-stream failure). -/
def fetchWrites (env : Env) (n : String) (p f : JVal) : Bool :=
  resolvesToUrl env n p f &&
    (match env.fetch n with
     | .ok _ => true
     | .errMid _ => true
     | .errBefore => false)

/-- The key list of an association list. -/
def keysOf {α : Type} (l : List (String × α)) : List String := l.map (fun p => p.1)

/-- A well-formed entry with no explicit file name, used in concrete runs. -/
def entryB1 : ModEntry := { projectID := some (.jint 1), fileID := some (.jint 2) }

/-- A well-formed entry under the second key-naming variant, used in
concrete runs. -/
def entryB2 : ModEntry :=
  { projectId := some (.jint 3), fileId := some (.jint 4), fileName := some "m.jar" }

/-- A well-formed manifest entry naming `a.jar`, used in concrete runs. -/
def entryA : ModEntry :=
  { projectID := some (.jint 1), fileID := some (.jint 2), fileName := some "a.jar" }

/-- A directory holding a non-jar file and a jar file, used in concrete runs. -/
def dirEx : Dir := [("notes.txt", "x"), ("old.jar", "y")]

/-- Filesystem state with `dirEx` present, used in concrete runs. -/
def fsEx : FS := { dirExists := true, dir := dirEx }

/-- Filesystem whose directory holds a single non-jar file, used in concrete
runs. -/
def fsTxt : FS := { dirExists := true, dir := [("b.txt", "z")] }

/-- Environment whose manifest fails to load (unreadable or invalid JSON). -/
def envLoadFail : Env :=
  { manifest := none, removeOk := fun _ => true,
    resolve := fun _ _ _ => .netErr, fetch := fun _ => .errBefore }

/-- Environment whose manifest loads but has no top-level files key. -/
def envNoKey : Env :=
  { manifest := some { hasFilesKey := false, files := [entryA] },
    removeOk := fun _ => true,
    resolve := fun _ _ _ => .netErr, fetch := fun _ => .errBefore }

/-- Environment with an empty desired set in which every removal fails. -/
def envRmFail : Env :=
  { manifest := some { hasFilesKey := true, files := [] },
    removeOk := fun _ => false,
    resolve := fun _ _ _ => .netErr, fetch := fun _ => .errBefore }

/-- Environment desiring `a.jar` where removals fail and the streamed
download dies mid-transfer, leaving partial contents on disk. -/
def envCex : Env :=
  { manifest := some { hasFilesKey := true, files := [entryA] },
    removeOk := fun _ => false,
    resolve := fun _ _ _ => .resp 200 " http://u ",
    fetch := fun _ => .errMid "pa" }

/-- Environment desiring `a.jar` in which everything succeeds. -/
def envOk : Env :=
  { manifest := some { hasFilesKey := true, files := [entryA] },
    removeOk := fun _ => true,
    resolve := fun _ _ _ => .resp 200 " http://u ",
    fetch := fun _ => .ok "data" }

/-! ## General facts about the embedded operations -/

theorem dlookup_append {α : Type} (l1 l2 : List (String × α)) (n : String) :
    dlookup n (l1 ++ l2) =
      (match dlookup n l1 with
       | some v => some v
       | none => dlookup n l2) := by
  induction l1 with
  | nil => simp [dlookup]
  | cons hd tl ih =>
    obtain ⟨k, v⟩ := hd
    by_cases h : k = n
    · simp [dlookup, h]
    · simp [dlookup, h, ih]

theorem removeFile_cons (k v : String) (tl : Dir) (n' : String) :
    removeFile ((k, v) :: tl) n' =
      if k = n' then removeFile tl n' else (k, v) :: removeFile tl n' := by
  by_cases hk : k = n' <;> simp [removeFile, hk]

theorem dlookup_removeFile_ne (d : Dir) (n' n : String) (h : n' ≠ n) :
    dlookup n (removeFile d n') = dlookup n d := by
  induction d with
  | nil => rfl
  | cons hd tl ih =>
    obtain ⟨k, v⟩ := hd
    rw [removeFile_cons]
    by_cases hk : k = n'
    · subst hk
      simp [dlookup, h, ih]
    · rw [if_neg hk]
      by_cases hn : k = n <;> simp [dlookup, hn, ih]

theorem dlookup_removeFile_self (d : Dir) (n : String) :
    dlookup n (removeFile d n) = none := by
  induction d with
  | nil => rfl
  | cons hd tl ih =>
    obtain ⟨k, v⟩ := hd
    rw [removeFile_cons]
    by_cases hk : k = n <;> simp [dlookup, hk, ih]

theorem dlookup_writeFile_self (d : Dir) (n c : String) :
    dlookup n (writeFile d n c) = some c := by
  simp [writeFile, dlookup_append, dlookup_removeFile_self, dlookup]

theorem dlookup_writeFile_ne (d : Dir) (n' n c : String) (h : n' ≠ n) :
    dlookup n (writeFile d n' c) = dlookup n d := by
  simp [writeFile, dlookup_append, dlookup_removeFile_ne d n' n h, dlookup, h]
  rcases dlookup n d with _ | v <;> simp

theorem dlookup_isSome_iff {α : Type} (l : List (String × α)) (n : String) :
    (dlookup n l).isSome = true ↔ ∃ v, (n, v) ∈ l := by
  induction l with
  | nil => simp [dlookup]
  | cons hd tl ih =>
    obtain ⟨k, v⟩ := hd
    by_cases hk : k = n
    · subst hk
      simp [dlookup]
    · simp [dlookup, hk, ih, Ne.symm hk]

theorem dlookup_dictInsert_self {α : Type} (k : String) (v : α) (l : List (String × α)) :
    dlookup k (dictInsert k v l) = some v := by
  induction l with
  | nil => simp [dictInsert, dlookup]
  | cons hd tl ih =>
    obtain ⟨k', v'⟩ := hd
    by_cases hk : k' = k <;> simp [dictInsert, dlookup, hk, ih]

theorem dlookup_dictInsert_ne {α : Type} (k n : String) (v : α) (l : List (String × α))
    (h : n ≠ k) : dlookup n (dictInsert k v l) = dlookup n l := by
  induction l with
  | nil => simp [dictInsert, dlookup, Ne.symm h]
  | cons hd tl ih =>
    obtain ⟨k', v'⟩ := hd
    simp only [dictInsert]
    by_cases hk : k' = k
    · rw [if_pos hk]
      subst hk
      simp [dlookup, Ne.symm h]
    · rw [if_neg hk]
      by_cases hn : k' = n <;> simp [dlookup, hn, ih]

theorem dictInsert_length {α : Type} (k : String) (v : α) (l : List (String × α))
    (h : dlookup k l = none) : (dictInsert k v l).length = l.length + 1 := by
  induction l with
  | nil => simp [dictInsert]
  | cons hd tl ih =>
    obtain ⟨k', v'⟩ := hd
    by_cases hk : k' = k
    · simp [dlookup, hk] at h
    · simp [dlookup, hk] at h
      simp [dictInsert, hk, ih h]

theorem mem_keysOf {α : Type} (l : List (String × α)) (n : String) :
    n ∈ keysOf l ↔ ∃ v, (n, v) ∈ l := by
  constructor
  · intro h
    obtain ⟨⟨k, v⟩, hm, he⟩ := List.mem_map.mp h
    exact ⟨v, by simpa [← he] using hm⟩
  · rintro ⟨v, hv⟩
    exact List.mem_map.mpr ⟨(n, v), hv, rfl⟩

theorem keysOf_cons {α : Type} (k : String) (v : α) (l : List (String × α)) :
    keysOf ((k, v) :: l) = k :: keysOf l := rfl

theorem mem_keysOf_dictInsert {α : Type} (k : String) (v : α) (l : List (String × α))
    (n : String) : n ∈ keysOf (dictInsert k v l) ↔ n = k ∨ n ∈ keysOf l := by
  induction l with
  | nil => simp [dictInsert, keysOf]
  | cons hd tl ih =>
    obtain ⟨k', v'⟩ := hd
    simp only [dictInsert]
    by_cases hk : k' = k
    · rw [if_pos hk]
      subst hk
      simp only [keysOf_cons, List.mem_cons]
      tauto
    · rw [if_neg hk]
      simp only [keysOf_cons, List.mem_cons, ih]
      tauto

theorem keysOf_dictInsert_nodup {α : Type} (k : String) (v : α) (l : List (String × α))
    (h : (keysOf l).Nodup) : (keysOf (dictInsert k v l)).Nodup := by
  induction l with
  | nil => simp [dictInsert, keysOf]
  | cons hd tl ih =>
    obtain ⟨k', v'⟩ := hd
    rw [keysOf_cons] at h
    have h1 : k' ∉ keysOf tl := (List.nodup_cons.mp h).1
    have h2 : (keysOf tl).Nodup := (List.nodup_cons.mp h).2
    simp only [dictInsert]
    by_cases hk : k' = k
    · rw [if_pos hk, keysOf_cons]
      subst hk
      exact List.nodup_cons.mpr ⟨h1, h2⟩
    · rw [if_neg hk, keysOf_cons]
      refine List.nodup_cons.mpr ⟨?_, ih h2⟩
      intro hmem
      rcases (mem_keysOf_dictInsert k v tl k').mp hmem with h3 | h3
      · exact hk h3
      · exact h1 h3

theorem buildModsAux_keys_nodup (es : List ModEntry) (acc : List (String × JVal × JVal))
    (h : (keysOf acc).Nodup) : (keysOf (buildModsAux es acc)).Nodup := by
  induction es generalizing acc with
  | nil => simpa [buildModsAux] using h
  | cons e rest ih =>
    simp only [buildModsAux]
    by_cases he : (e.pid.truthy && e.fid.truthy) = true
    · rw [if_pos he]
      exact ih _ (keysOf_dictInsert_nodup _ _ _ h)
    · rw [if_neg he]
      exact ih _ h

theorem buildMods_keys_nodup (es : List ModEntry) : (keysOf (buildMods es)).Nodup :=
  buildModsAux_keys_nodup es [] (by simp [keysOf])

theorem buildModsAux_dlookup_nomem (es : List ModEntry) (acc : List (String × JVal × JVal))
    (k : String) (hk : ∀ e ∈ es, e.resolvedName ≠ k) :
    dlookup k (buildModsAux es acc) = dlookup k acc := by
  induction es generalizing acc with
  | nil => rfl
  | cons e rest ih =>
    have hrest : ∀ e' ∈ rest, e'.resolvedName ≠ k := fun e' h' => hk e' (List.mem_cons_of_mem _ h')
    simp only [buildModsAux]
    by_cases he : (e.pid.truthy && e.fid.truthy) = true
    · rw [if_pos he, ih _ hrest]
      exact dlookup_dictInsert_ne _ _ _ _ (Ne.symm (hk e (List.mem_cons_self _ _)))
    · rw [if_neg he]
      exact ih _ hrest

theorem buildModsAux_wf (es : List ModEntry) (acc : List (String × JVal × JVal))
    (hwf : ∀ e ∈ es, (e.pid.truthy && e.fid.truthy) = true)
    (hnd : (es.map ModEntry.resolvedName).Nodup)
    (hdisj : ∀ e ∈ es, dlookup e.resolvedName acc = none) :
    (buildModsAux es acc).length = acc.length + es.length
    ∧ ∀ e ∈ es, dlookup e.resolvedName (buildModsAux es acc) = some (e.pid, e.fid) := by
  induction es generalizing acc with
  | nil => simp [buildModsAux]
  | cons e rest ih =>
    have he : (e.pid.truthy && e.fid.truthy) = true := hwf e (List.mem_cons_self _ _)
    have hndr : (rest.map ModEntry.resolvedName).Nodup := (List.nodup_cons.mp hnd).2
    have hnm : e.resolvedName ∉ rest.map ModEntry.resolvedName := (List.nodup_cons.mp hnd).1
    have hdiff : ∀ e' ∈ rest, e'.resolvedName ≠ e.resolvedName := by
      intro e' h' heq
      exact hnm (List.mem_map.mpr ⟨e', h', heq⟩)
    have hdisjr : ∀ e' ∈ rest,
        dlookup e'.resolvedName (dictInsert e.resolvedName (e.pid, e.fid) acc) = none := by
      intro e' h'
      rw [dlookup_dictInsert_ne _ _ _ _ (hdiff e' h')]
      exact hdisj e' (List.mem_cons_of_mem _ h')
    have ihr := ih (dictInsert e.resolvedName (e.pid, e.fid) acc)
      (fun e' h' => hwf e' (List.mem_cons_of_mem _ h')) hndr hdisjr
    simp only [buildModsAux, if_pos he]
    constructor
    · rw [ihr.1, dictInsert_length _ _ _ (hdisj e (List.mem_cons_self _ _))]
      simp [List.length_cons]
      omega
    · intro e' h'
      rcases List.mem_cons.mp h' with h' | h'
      · subst h'
        rw [buildModsAux_dlookup_nomem _ _ _ hdiff]
        exact dlookup_dictInsert_self _ _ _
      · exact ihr.2 e' h'

/-! ## Claim theorems -/

/-- C4: a manifest whose `files` list holds `N` well-formed entries (truthy
project id and file id under either key variant) with pairwise distinct
resolved names yields a desired-set mapping with exactly `N` keys, each
resolved name mapping to that entry's identifier pair. -/
theorem wellformed_manifest_mapping (es : List ModEntry)
    (hwf : ∀ e ∈ es, (e.pid.truthy && e.fid.truthy) = true)
    (hnd : (es.map ModEntry.resolvedName).Nodup) :
    (buildMods es).length = es.length
    ∧ ∀ e ∈ es, dlookup e.resolvedName (buildMods es) = some (e.pid, e.fid) := by
  have h := buildModsAux_wf es [] hwf hnd (fun e _ => rfl)
  simpa [buildMods] using h

/-- Witness for C4 on a concrete two-entry manifest. -/
theorem wellformed_manifest_mapping_w :
    (buildMods [entryB1, entryB2]).length = 2
    ∧ dlookup "m.jar" (buildMods [entryB1, entryB2]) = some (.jint 3, .jint 4) := by
  have h := wellformed_manifest_mapping [entryB1, entryB2] (by decide) (by decide)
  refine ⟨h.1, ?_⟩
  have h2 := h.2 entryB2 (by simp)
  exact h2

/-- C5: an entry with identifiers but without an explicit file name resolves
to the synthesized name `<projectId>-<fileId>.jar`; in particular
`{"projectID": 100, "fileID": 200}` resolves to `"100-200.jar"`. -/
theorem synthesized_name (e : ModEntry) :
    (e.fileName = none →
      e.resolvedName = e.pid.pyStr ++ "-" ++ e.fid.pyStr ++ ".jar")
    ∧ ModEntry.resolvedName
        { projectID := some (.jint 100), fileID := some (.jint 200) } = "100-200.jar" := by
  constructor
  · intro h
    simp [ModEntry.resolvedName, h]
  · decide

/-- Witness for C5 at a concrete entry without a file name. -/
theorem synthesized_name_w : ModEntry.resolvedName entryB1 = "1-2.jar" := by
  have h := (synthesized_name entryB1).1 rfl
  exact h

/-- C9: an entry whose resolved project id or file id is falsy (for example
integer `0` or the empty string) is skipped and contributes nothing to the
mapping, and a falsy value under the first key variant makes the lookup fall
back to the second variant even though the key is present. -/
theorem falsy_id_handling (e : ModEntry) (v : JVal) :
    ((e.pid.truthy && e.fid.truthy) = false →
      ∀ (es : List ModEntry) (acc : List (String × JVal × JVal)),
        buildModsAux (e :: es) acc = buildModsAux es acc)
    ∧ (e.projectID = some v → v.truthy = false → e.pid = jget e.projectId)
    ∧ (e.fileID = some v → v.truthy = false → e.fid = jget e.fileId) := by
  refine ⟨?_, ?_, ?_⟩
  · intro h es acc
    simp [buildModsAux, h]
  · intro h hv
    have h' : ¬ (v.truthy = true) := by simp [hv]
    simp only [ModEntry.pid, h, jget, pyOr, if_neg h']
  · intro h hv
    have h' : ¬ (v.truthy = true) := by simp [hv]
    simp only [ModEntry.fid, h, jget, pyOr, if_neg h']

/-- Witness for C9: `projectID = 0` alone means the entry is skipped, and a
falsy first-variant value falls back to the second variant. -/
theorem falsy_id_handling_w :
    buildModsAux [{ projectID := some (.jint 0) }] [] = buildModsAux [] []
    ∧ ModEntry.pid { projectID := some (.jint 0), projectId := some (.jint 7) }
        = jget (some (.jint 7))
    ∧ ModEntry.fid { fileID := some (.jstr ""), fileId := some (.jint 9) }
        = jget (some (.jint 9)) :=
  ⟨(falsy_id_handling { projectID := some (.jint 0) } (.jint 0)).1 (by decide) [] [],
   (falsy_id_handling { projectID := some (.jint 0), projectId := some (.jint 7) }
      (.jint 0)).2.1 rfl (by decide),
   (falsy_id_handling { fileID := some (.jstr ""), fileId := some (.jint 9) }
      (.jstr "")).2.2 rfl (by decide)⟩

/-- C10: the mods directory is created (`os.makedirs(..., exist_ok=True)`)
before the manifest is read, so it exists after every run, including runs
that stop early on a manifest-load failure or a missing files key. -/
theorem run_creates_mods_dir (env : Env) (fs0 : FS) :
    (run env fs0).fs.dirExists = true := by
  unfold run
  rcases env.manifest with _ | m
  · rfl
  · by_cases h : m.hasFilesKey = false <;> simp [h]

/-- C6: when the manifest fails to load or lacks the `files` key, the run
stops early: the directory contents are untouched (empty if the directory
had just been created) and no HTTP request is issued. -/
theorem manifest_failure_stops (env : Env) (fs0 : FS)
    (h : env.manifest = none ∨ ∃ m, env.manifest = some m ∧ m.hasFilesKey = false) :
    (run env fs0).fs.dir = (if fs0.dirExists then fs0.dir else [])
    ∧ (run env fs0).events = [] := by
  rcases h with h | ⟨m, hm, hk⟩
  · simp [run, h]
  · simp [run, hm, hk]

/-- Witness for C6 on a concrete unreadable-manifest run. -/
theorem manifest_failure_stops_w :
    (run envLoadFail fsEx).fs.dir = (if fsEx.dirExists then fsEx.dir else [])
    ∧ (run envLoadFail fsEx).events = [] :=
  manifest_failure_stops envLoadFail fsEx (Or.inl rfl)

/-- Counterexample to C2 as stated: with an empty desired set, the `.jar`
file `old.jar` is not a key of the mapping, yet it is still present after
the prune pass because its removal failed (the failure is caught and
skipped, lines 58-62). -/
theorem prune_not_always_deletes_cex :
    dlookup "old.jar" (prune envRmFail (buildMods []) [("old.jar", "y")]) = some "y"
    ∧ dlookup "old.jar" (buildMods []) = none
    ∧ pyEndsWith (pyLower "old.jar") ".jar" = true := by
  decide

/-- Membership in the directory after the prune walk over a name list:
a pair survives exactly when it was there before and, if its name is on the
walked list, the name is a mapping key or its removal fails. -/
theorem pruneList_mem (env : Env) (mods : List (String × JVal × JVal)) :
    ∀ (fl : List String) (d : Dir) (n c : String),
      ((n, c) ∈ pruneList env mods fl d ↔
        (n, c) ∈ d ∧ (n ∈ fl →
          (dlookup n mods).isSome = true ∨ env.removeOk n = false)) := by
  intro fl
  induction fl with
  | nil => simp [pruneList]
  | cons f rest ih =>
    intro d n c
    by_cases hf : (dlookup f mods).isSome = true
    · rw [show pruneList env mods (f :: rest) d = pruneList env mods rest d by
        simp [pruneList, hf]]
      rw [ih]
      by_cases hn : n = f
      · subst hn
        simp [hf]
      · simp [hn]
    · by_cases hr : env.removeOk f = true
      · rw [show pruneList env mods (f :: rest) d
            = pruneList env mods rest (removeFile d f) by simp [pruneList, hf, hr]]
        rw [ih]
        by_cases hn : n = f
        · subst hn
          simp only [removeFile, List.mem_filter]
          constructor
          · rintro ⟨⟨_, hne⟩, _⟩
            simp at hne
          · rintro ⟨hd, hcond⟩
            rcases hcond (List.mem_cons_self _ _) with h1 | h1
            · exact absurd h1 hf
            · rw [hr] at h1
              cases h1
        · have hmem : (n, c) ∈ removeFile d f ↔ (n, c) ∈ d := by
            simp [removeFile, List.mem_filter, hn]
          rw [hmem]
          simp [hn]
      · rw [show pruneList env mods (f :: rest) d = pruneList env mods rest d by
          simp [pruneList, hf, hr]]
        rw [ih]
        by_cases hn : n = f
        · subst hn
          simp only [Bool.not_eq_true] at hr
          simp [hr]
        · simp [hn]

/-- C2 (amended): after the prune pass, a file survives exactly when it was
present before and, if its name ends in `.jar` case-insensitively, it is
either a key of the desired-set mapping or its removal failed. Hence every
non-key `.jar` file whose removal succeeds is deleted, and files not ending
in `.jar` are never deleted. -/
theorem prune_deletes_exactly (env : Env) (mods : List (String × JVal × JVal))
    (d : Dir) (n c : String) :
    (n, c) ∈ prune env mods d ↔
      (n, c) ∈ d ∧ (pyEndsWith (pyLower n) ".jar" = true →
        (dlookup n mods).isSome = true ∨ env.removeOk n = false) := by
  rw [prune, pruneList_mem]
  constructor
  · rintro ⟨hd, hcond⟩
    refine ⟨hd, fun hjar => hcond ?_⟩
    simp only [jarSnapshot, List.mem_filter, List.mem_map]
    exact ⟨⟨(n, c), hd, rfl⟩, hjar⟩
  · rintro ⟨hd, hcond⟩
    refine ⟨hd, fun hmem => hcond ?_⟩
    simp only [jarSnapshot, List.mem_filter] at hmem
    exact hmem.2

/-- Witness for C2 (amended): a desired `.jar` file survives the prune pass. -/
theorem prune_deletes_exactly_w :
    ("a.jar", "z") ∈ prune envOk (buildMods [entryA]) [("a.jar", "z")] :=
  (prune_deletes_exactly envOk (buildMods [entryA]) [("a.jar", "z")] "a.jar" "z").mpr
    ⟨by decide, fun _ => Or.inl (by decide)⟩

theorem fetchOne_spec (env : Env) (d : Dir) (k : String) (p f : JVal) :
    fetchOne env d k p f = (d, [])
    ∨ fetchOne env d k p f = (d, [.resolveReq k p f])
    ∨ (∃ url c, fetchOne env d k p f
        = (writeFile d k c, [.resolveReq k p f, .downloadReq k url]))
    ∨ (∃ url, fetchOne env d k p f = (d, [.resolveReq k p f, .downloadReq k url])) := by
  unfold fetchOne
  by_cases h0 : (dlookup k d).isSome = true
  · rw [if_pos h0]
    exact Or.inl rfl
  · rw [if_neg h0]
    rcases hr : env.resolve k p f with _ | ⟨status, body⟩
    · exact Or.inr (Or.inl rfl)
    · dsimp only
      by_cases hs : status ≠ 200
      · rw [if_pos hs]
        exact Or.inr (Or.inl rfl)
      · rw [if_neg hs]
        by_cases hw : ¬ pyStartsWith (pyStrip body) "http" = true
        · rw [if_pos hw]
          exact Or.inr (Or.inl rfl)
        · rw [if_neg hw]
          rcases hf : env.fetch k with c | _ | w
          · exact Or.inr (Or.inr (Or.inl ⟨_, c, rfl⟩))
          · exact Or.inr (Or.inr (Or.inr ⟨_, rfl⟩))
          · exact Or.inr (Or.inr (Or.inl ⟨_, w, rfl⟩))

theorem fetchOne_events_name (env : Env) (d : Dir) (k : String) (p f : JVal) :
    ∀ ev ∈ (fetchOne env d k p f).2, ev.name = k := by
  intro ev hev
  rcases fetchOne_spec env d k p f with h | h | ⟨url, c, h⟩ | ⟨url, h⟩ <;>
    rw [h] at hev
  · simp at hev
  · simp at hev
    simp [hev, Event.name]
  · simp at hev
    rcases hev with hev | hev <;> simp [hev, Event.name]
  · simp at hev
    rcases hev with hev | hev <;> simp [hev, Event.name]

theorem fetchOne_events_nodup (env : Env) (d : Dir) (k : String) (p f : JVal) :
    (fetchOne env d k p f).2.Nodup := by
  rcases fetchOne_spec env d k p f with h | h | ⟨url, c, h⟩ | ⟨url, h⟩ <;>
    rw [h] <;> simp

theorem fetchOne_dir_cases (env : Env) (d : Dir) (k : String) (p f : JVal) :
    (fetchOne env d k p f).1 = d ∨ ∃ c, (fetchOne env d k p f).1 = writeFile d k c := by
  rcases fetchOne_spec env d k p f with h | h | ⟨url, c, h⟩ | ⟨url, h⟩
  · exact Or.inl (by rw [h])
  · exact Or.inl (by rw [h])
  · exact Or.inr ⟨c, by rw [h]⟩
  · exact Or.inl (by rw [h])

theorem fetchAll_preserves (env : Env) (ms : List (String × JVal × JVal)) :
    ∀ (d : Dir) (n c : String), dlookup n d = some c →
      dlookup n (fetchAll env ms d).1 = some c
      ∧ ∀ ev ∈ (fetchAll env ms d).2, ev.name ≠ n := by
  induction ms with
  | nil =>
    intro d n c h
    exact ⟨h, by simp [fetchAll]⟩
  | cons entry rest ih =>
    obtain ⟨k, p, f⟩ := entry
    intro d n c h
    by_cases hk : k = n
    · subst hk
      have hs : (dlookup k d).isSome = true := by simp [h]
      have hfo : fetchOne env d k p f = (d, []) := by
        unfold fetchOne
        rw [if_pos hs]
      have hr := ih d k c h
      simp only [fetchAll, hfo]
      exact ⟨hr.1, by simpa using hr.2⟩
    · have hd' : dlookup n (fetchOne env d k p f).1 = some c := by
        rcases fetchOne_dir_cases env d k p f with he | ⟨c', he⟩
        · rw [he]; exact h
        · rw [he, dlookup_writeFile_ne _ _ _ _ hk]; exact h
      have hr := ih _ n c hd'
      simp only [fetchAll]
      refine ⟨hr.1, ?_⟩
      intro ev hev
      rcases List.mem_append.mp hev with hev | hev
      · rw [fetchOne_events_name env d k p f ev hev]
        exact hk
      · exact hr.2 ev hev

theorem pruneList_dlookup_key (env : Env) (mods : List (String × JVal × JVal)) :
    ∀ (fl : List String) (d : Dir) (n c : String),
      (dlookup n mods).isSome = true → dlookup n d = some c →
      dlookup n (pruneList env mods fl d) = some c := by
  intro fl
  induction fl with
  | nil =>
    intro d n c _ h
    exact h
  | cons f rest ih =>
    intro d n c hm h
    by_cases hf : (dlookup f mods).isSome = true
    · rw [show pruneList env mods (f :: rest) d = pruneList env mods rest d by
        simp [pruneList, hf]]
      exact ih d n c hm h
    · by_cases hr : env.removeOk f = true
      · have hfn : f ≠ n := fun he => hf (he ▸ hm)
        rw [show pruneList env mods (f :: rest) d
            = pruneList env mods rest (removeFile d f) by simp [pruneList, hf, hr]]
        exact ih _ n c hm (by rw [dlookup_removeFile_ne _ _ _ hfn]; exact h)
      · rw [show pruneList env mods (f :: rest) d = pruneList env mods rest d by
          simp [pruneList, hf, hr]]
        exact ih d n c hm h

/-- C3: a desired entry whose file is already on disk when the run starts is
skipped by the fetch loop: its contents are unchanged by the run and no HTTP
request concerning it is ever issued, whatever the remote side holds. -/
theorem existing_file_untouched (env : Env) (fs0 : FS) (m : ManifestDoc)
    (n c : String) (p f : JVal)
    (hex : fs0.dirExists = true)
    (hm : env.manifest = some m) (hk : m.hasFilesKey = true)
    (hdes : dlookup n (buildMods m.files) = some (p, f))
    (hdisk : dlookup n fs0.dir = some c) :
    dlookup n (run env fs0).fs.dir = some c
    ∧ ∀ ev ∈ (run env fs0).events, ev.name ≠ n := by
  have hkey : (dlookup n (buildMods m.files)).isSome = true := by simp [hdes]
  have hdir : (run env fs0).fs.dir = (fetchAll env (buildMods m.files)
      (prune env (buildMods m.files) fs0.dir)).1 := by
    simp [run, hm, hk, hex]
  have hevs : (run env fs0).events = (fetchAll env (buildMods m.files)
      (prune env (buildMods m.files) fs0.dir)).2 := by
    simp [run, hm, hk, hex]
  have h1 : dlookup n (prune env (buildMods m.files) fs0.dir) = some c :=
    pruneList_dlookup_key env (buildMods m.files) (jarSnapshot fs0.dir) fs0.dir n c hkey hdisk
  have h2 := fetchAll_preserves env (buildMods m.files)
    (prune env (buildMods m.files) fs0.dir) n c h1
  rw [hdir, hevs]
  exact h2

/-- Witness for C3: `a.jar` is on disk with old contents, the remote side
would serve new contents, and the run leaves the old contents in place with
no request issued for it. -/
theorem existing_file_untouched_w :
    dlookup "a.jar" (run envOk { dirExists := true, dir := [("a.jar", "OLD")] }).fs.dir
      = some "OLD" :=
  (existing_file_untouched envOk { dirExists := true, dir := [("a.jar", "OLD")] }
    { hasFilesKey := true, files := [entryA] } "a.jar" "OLD" (.jint 1) (.jint 2)
    rfl rfl rfl (by decide) (by decide)).1

/-- C7: a missing entry whose resolution or transfer fails is handled in
isolation: the loop continues with the remaining entries from the state the
failed entry left behind, the entry's requests are issued at most once (no
retry), and the directory is either untouched or — for a mid-stream
failure — keeps the partially written file (no cleanup). -/
theorem failing_entry_isolated (env : Env) (d : Dir) (n : String) (p f : JVal)
    (rest : List (String × JVal × JVal))
    (hmiss : (dlookup n d).isSome = false)
    (hfail : fetchOk env n p f = false) :
    (fetchAll env ((n, p, f) :: rest) d).1
        = (fetchAll env rest (fetchOne env d n p f).1).1
    ∧ (fetchAll env ((n, p, f) :: rest) d).2
        = (fetchOne env d n p f).2 ++ (fetchAll env rest (fetchOne env d n p f).1).2
    ∧ (fetchOne env d n p f).2.Nodup
    ∧ ((fetchOne env d n p f).1 = d
        ∨ ∃ w, env.fetch n = .errMid w ∧ (fetchOne env d n p f).1 = writeFile d n w) := by
  refine ⟨rfl, rfl, fetchOne_events_nodup env d n p f, ?_⟩
  unfold fetchOne
  rw [if_neg (by simp [hmiss])]
  rcases hr : env.resolve n p f with _ | ⟨status, body⟩
  · exact Or.inl rfl
  · dsimp only
    by_cases hs : status ≠ 200
    · rw [if_pos hs]
      exact Or.inl rfl
    · rw [if_neg hs]
      by_cases hw : ¬ pyStartsWith (pyStrip body) "http" = true
      · rw [if_pos hw]
        exact Or.inl rfl
      · rw [if_neg hw]
        rcases hf : env.fetch n with c | _ | w
        · exfalso
          have hok : fetchOk env n p f = true := by
            simp only [fetchOk, resolvesToUrl, hr, hf]
            simp at hs hw
            simp [hs, hw]
          simp [hok] at hfail
        · exact Or.inl rfl
        · exact Or.inr ⟨w, rfl, rfl⟩

/-- Witness for C7 at a concrete mid-stream download failure. -/
theorem failing_entry_isolated_w :
    (fetchOne envCex [] "a.jar" (.jint 1) (.jint 2)).2.Nodup :=
  (failing_entry_isolated envCex [] "a.jar" (.jint 1) (.jint 2) [] rfl (by decide)).2.2.1

/-- C8: for a missing entry, the streamed-download request is issued exactly
when the resolution response has status 200 and its stripped body starts
with `http`; otherwise the entry is skipped and nothing is written for it. -/
theorem download_request_gated (env : Env) (d : Dir) (n : String) (p f : JVal)
    (hmiss : (dlookup n d).isSome = false) :
    ((∃ url, Event.downloadReq n url ∈ (fetchOne env d n p f).2)
      ↔ resolvesToUrl env n p f = true)
    ∧ (resolvesToUrl env n p f = false → (fetchOne env d n p f).1 = d) := by
  unfold fetchOne resolvesToUrl
  rw [if_neg (by simp [hmiss])]
  rcases hr : env.resolve n p f with _ | ⟨status, body⟩
  · exact ⟨by simp, fun _ => rfl⟩
  · dsimp only
    by_cases hs : status ≠ 200
    · rw [if_pos hs]
      have hb : (status == 200) = false := by simp [hs]
      exact ⟨by simp [hb], fun _ => rfl⟩
    · rw [if_neg hs]
      have hs' : status = 200 := by simpa using hs
      by_cases hw : ¬ pyStartsWith (pyStrip body) "http" = true
      · rw [if_pos hw]
        have hwb : pyStartsWith (pyStrip body) "http" = false := by simpa using hw
        exact ⟨by simp [hs', hwb], fun _ => rfl⟩
      · have hwb : pyStartsWith (pyStrip body) "http" = true := by simpa using hw
        rw [if_neg hw]
        rcases hf : env.fetch n with c | _ | w <;>
          exact ⟨by simp [hs', hwb], fun hcon => by simp [hs', hwb] at hcon⟩

/-- Witness for C8: a resolution network error means no download request and
no write. -/
theorem download_request_gated_w :
    (fetchOne envLoadFail [] "a.jar" (.jint 1) (.jint 2)).1 = [] :=
  (download_request_gated envLoadFail [] "a.jar" (.jint 1) (.jint 2) rfl).2 rfl

theorem fetchOne_skip (env : Env) (d : Dir) (k : String) (p f : JVal)
    (h : (dlookup k d).isSome = true) : fetchOne env d k p f = (d, []) := by
  unfold fetchOne
  rw [if_pos h]

theorem fetchOne_missing_isSome (env : Env) (d : Dir) (k : String) (p f : JVal)
    (h : (dlookup k d).isSome = false) :
    (dlookup k (fetchOne env d k p f).1).isSome = fetchWrites env k p f := by
  unfold fetchOne fetchWrites resolvesToUrl
  rw [if_neg (by simp [h])]
  rcases hr : env.resolve k p f with _ | ⟨status, body⟩
  · simpa using h
  · dsimp only
    by_cases hs : status ≠ 200
    · rw [if_pos hs]
      have hb : (status == 200) = false := by simp [hs]
      simp [hb, h]
    · rw [if_neg hs]
      have hs2 : status = 200 := by simpa using hs
      subst hs2
      by_cases hw : ¬ pyStartsWith (pyStrip body) "http" = true
      · rw [if_pos hw]
        have hwb : pyStartsWith (pyStrip body) "http" = false := by simpa using hw
        simp [hwb, h]
      · have hwb : pyStartsWith (pyStrip body) "http" = true := by simpa using hw
        rw [if_neg hw]
        rcases hf : env.fetch k with c | _ | w
        · simp [dlookup_writeFile_self, hwb]
        · simp [h, hwb]
        · simp [dlookup_writeFile_self, hwb]

theorem fetchWrites_eq_fetchOk (env : Env) (n : String) (p f : JVal)
    (hmid : ∀ w, env.fetch n ≠ .errMid w) :
    fetchWrites env n p f = fetchOk env n p f := by
  unfold fetchWrites fetchOk
  rcases hf : env.fetch n with c | _ | w
  · rfl
  · rfl
  · exact absurd hf (hmid w)

theorem dlookup_eq_iff_mem {α : Type} :
    ∀ (l : List (String × α)), (keysOf l).Nodup →
    ∀ (n : String) (v : α), (dlookup n l = some v ↔ (n, v) ∈ l) := by
  intro l
  induction l with
  | nil =>
    intro _ n v
    simp [dlookup]
  | cons hd tl ih =>
    obtain ⟨k, w⟩ := hd
    intro hnd n v
    rw [keysOf_cons] at hnd
    have h1 : k ∉ keysOf tl := (List.nodup_cons.mp hnd).1
    have h2 : (keysOf tl).Nodup := (List.nodup_cons.mp hnd).2
    by_cases hk : k = n
    · subst hk
      simp only [dlookup, if_pos rfl]
      constructor
      · intro h
        injection h with h
        rw [← h]
        exact List.mem_cons_self _ _
      · intro h
        rcases List.mem_cons.mp h with he | he
        · have hv : v = w := congrArg Prod.snd he
          simp [hv]
        · exact absurd ((mem_keysOf tl k).mpr ⟨v, he⟩) h1
    · simp only [dlookup, if_neg hk]
      rw [ih h2 n v]
      constructor
      · exact List.mem_cons_of_mem _
      · intro h
        rcases List.mem_cons.mp h with he | he
        · exact absurd (congrArg Prod.fst he).symm hk
        · exact he

theorem prune_dlookup_isSome (env : Env) (mods : List (String × JVal × JVal))
    (d : Dir) (n : String) :
    (dlookup n (prune env mods d)).isSome = true ↔
      (dlookup n d).isSome = true ∧ (pyEndsWith (pyLower n) ".jar" = true →
        (dlookup n mods).isSome = true ∨ env.removeOk n = false) := by
  constructor
  · intro h
    obtain ⟨c, hc⟩ := (dlookup_isSome_iff _ n).mp h
    have hm := (pruneList_mem env mods (jarSnapshot d) d n c).mp hc
    refine ⟨(dlookup_isSome_iff d n).mpr ⟨c, hm.1⟩, fun hjar => hm.2 ?_⟩
    simp only [jarSnapshot, List.mem_filter, List.mem_map]
    exact ⟨⟨(n, c), hm.1, rfl⟩, hjar⟩
  · rintro ⟨hd, hcond⟩
    obtain ⟨c, hc⟩ := (dlookup_isSome_iff d n).mp hd
    refine (dlookup_isSome_iff _ n).mpr
      ⟨c, (pruneList_mem env mods (jarSnapshot d) d n c).mpr ⟨hc, fun hmem => hcond ?_⟩⟩
    simp only [jarSnapshot, List.mem_filter] at hmem
    exact hmem.2

theorem fetchAll_names (env : Env) :
    ∀ (ms : List (String × JVal × JVal)), (keysOf ms).Nodup →
    ∀ (d : Dir) (n : String),
      ((dlookup n (fetchAll env ms d).1).isSome = true ↔
        (dlookup n d).isSome = true
        ∨ ∃ p f, (n, p, f) ∈ ms ∧ (dlookup n d).isSome = false
            ∧ fetchWrites env n p f = true) := by
  intro ms
  induction ms with
  | nil =>
    intro _ d n
    simp [fetchAll]
  | cons entry rest ih =>
    obtain ⟨k, p, f⟩ := entry
    intro hnd d n
    rw [keysOf_cons] at hnd
    have hknm : k ∉ keysOf rest := (List.nodup_cons.mp hnd).1
    have hndr : (keysOf rest).Nodup := (List.nodup_cons.mp hnd).2
    by_cases hk : n = k
    · subst hk
      by_cases hd : (dlookup n d).isSome = true
      · have hfo : fetchOne env d n p f = (d, []) := fetchOne_skip env d n p f hd
        have h1 : (fetchAll env ((n, p, f) :: rest) d).1 = (fetchAll env rest d).1 := by
          simp [fetchAll, hfo]
        rw [h1, ih hndr d n]
        simp [hd]
      · have hmiss : (dlookup n d).isSome = false := by simpa using hd
        have h1 : (fetchAll env ((n, p, f) :: rest) d).1
            = (fetchAll env rest (fetchOne env d n p f).1).1 := rfl
        rw [h1, ih hndr _ n]
        have hself := fetchOne_missing_isSome env d n p f hmiss
        have hnr : ∀ p' f', (n, p', f') ∉ rest := by
          intro p' f' hmem
          exact hknm ((mem_keysOf rest n).mpr ⟨(p', f'), hmem⟩)
        constructor
        · rintro (hin | ⟨p', f', hmem, _, _⟩)
          · right
            exact ⟨p, f, List.mem_cons_self _ _, hmiss, by rw [← hself]; exact hin⟩
          · exact absurd hmem (hnr p' f')
        · rintro (hin | ⟨p', f', hmem, _, hwr⟩)
          · rw [hmiss] at hin
            cases hin
          · rcases List.mem_cons.mp hmem with he | he
            · have hp : p' = p := congrArg (fun q => q.2.1) he
              have hf2 : f' = f := congrArg (fun q => q.2.2) he
              rw [hp, hf2] at hwr
              rw [hself]
              exact Or.inl hwr
            · exact absurd he (hnr p' f')
    · have hd' : dlookup n (fetchOne env d k p f).1 = dlookup n d := by
        rcases fetchOne_dir_cases env d k p f with he | ⟨c, he⟩
        · rw [he]
        · rw [he, dlookup_writeFile_ne _ _ _ _ (fun hh => hk hh.symm)]
      have h1 : (fetchAll env ((k, p, f) :: rest) d).1
          = (fetchAll env rest (fetchOne env d k p f).1).1 := rfl
      rw [h1, ih hndr _ n, hd']
      constructor
      · rintro (hin | ⟨p', f', hmem, hm2, hw2⟩)
        · exact Or.inl hin
        · exact Or.inr ⟨p', f', List.mem_cons_of_mem _ hmem, hm2, hw2⟩
      · rintro (hin | ⟨p', f', hmem, hm2, hw2⟩)
        · exact Or.inl hin
        · rcases List.mem_cons.mp hmem with he | he
          · exact absurd (congrArg Prod.fst he) hk
          · exact Or.inr ⟨p', f', he, hm2, hw2⟩

/-- Counterexample to C1 as stated: a run whose manifest loads with the
files key, over a directory holding a non-jar file and a jar file whose
removal fails, and whose only desired download dies mid-stream. Afterwards
the directory holds `notes.txt` (never considered for pruning), `old.jar`
(removal failed) and a partial `a.jar` (failed download left on disk),
while the claim predicts the name set `{}`, since the key set is
`{a.jar}` and its download failed. -/
theorem run_name_set_cex :
    (run envCex fsEx).fs.dir
      = [("notes.txt", "x"), ("old.jar", "y"), ("a.jar", "pa")]
    ∧ keysOf (buildMods [entryA]) = ["a.jar"]
    ∧ envCex.manifest = some { hasFilesKey := true, files := [entryA] }
    ∧ fetchOk envCex "a.jar" (.jint 1) (.jint 2) = false := by
  decide

/-- C1 (amended): after a run whose manifest loads with the files key, and
in which every attempted removal succeeds and no download fails mid-stream,
a name is present in the target directory exactly when it is a key of the
desired-set mapping that was either already present or fetched successfully
(failed downloads are absent), or it was a pre-existing file whose name does
not end in `.jar` case-insensitively (such files are never pruned). -/
theorem run_name_set (env : Env) (fs0 : FS) (m : ManifestDoc) (n : String)
    (hex : fs0.dirExists = true)
    (hm : env.manifest = some m) (hk : m.hasFilesKey = true)
    (hrm : ∀ x, env.removeOk x = true)
    (hmid : ∀ x w, env.fetch x ≠ .errMid w) :
    (dlookup n (run env fs0).fs.dir).isSome = true ↔
      ((∃ p f, dlookup n (buildMods m.files) = some (p, f)
          ∧ ((dlookup n fs0.dir).isSome = true ∨ fetchOk env n p f = true))
       ∨ ((dlookup n fs0.dir).isSome = true
          ∧ pyEndsWith (pyLower n) ".jar" = false)) := by
  have hdir : (run env fs0).fs.dir = (fetchAll env (buildMods m.files)
      (prune env (buildMods m.files) fs0.dir)).1 := by
    simp [run, hm, hk, hex]
  rw [hdir]
  have hnd : (keysOf (buildMods m.files)).Nodup := buildMods_keys_nodup m.files
  rw [fetchAll_names env (buildMods m.files) hnd _ n]
  have hpr := prune_dlookup_isSome env (buildMods m.files) fs0.dir n
  rcases hml : dlookup n (buildMods m.files) with _ | ⟨p0, f0⟩
  · have hnomem : ∀ p f, (n, p, f) ∉ buildMods m.files := by
      intro p f hmem
      have hx := (dlookup_eq_iff_mem (buildMods m.files) hnd n (p, f)).mpr hmem
      rw [hml] at hx
      cases hx
    constructor
    · rintro (hin | ⟨p', f', hmem, _, _⟩)
      · obtain ⟨hd, hcond⟩ := hpr.mp hin
        right
        refine ⟨hd, ?_⟩
        by_cases hjar : pyEndsWith (pyLower n) ".jar" = true
        · rcases hcond hjar with hcon | hcon
          · rw [hml] at hcon
            cases hcon
          · rw [hrm n] at hcon
            cases hcon
        · simpa using hjar
      · exact absurd hmem (hnomem p' f')
    · rintro (⟨p', f', hl, _⟩ | ⟨hd, hjar⟩)
      · exact Option.noConfusion hl
      · left
        exact hpr.mpr ⟨hd, fun hj => by rw [hjar] at hj; cases hj⟩
  · have hkey : (dlookup n (buildMods m.files)).isSome = true := by rw [hml]; rfl
    have hmem0 : (n, p0, f0) ∈ buildMods m.files :=
      (dlookup_eq_iff_mem (buildMods m.files) hnd n (p0, f0)).mp hml
    have huniq : ∀ p' f', (n, p', f') ∈ buildMods m.files → p' = p0 ∧ f' = f0 := by
      intro p' f' hmem
      have hx := (dlookup_eq_iff_mem (buildMods m.files) hnd n (p', f')).mpr hmem
      rw [hml] at hx
      injection hx with hx
      exact ⟨(congrArg Prod.fst hx).symm, (congrArg Prod.snd hx).symm⟩
    constructor
    · rintro (hin | ⟨p', f', hmem, _, hw2⟩)
      · obtain ⟨hd, _⟩ := hpr.mp hin
        exact Or.inl ⟨p0, f0, rfl, Or.inl hd⟩
      · obtain ⟨hp, hf⟩ := huniq p' f' hmem
        rw [hp, hf] at hw2
        rw [fetchWrites_eq_fetchOk env n p0 f0 (hmid n)] at hw2
        exact Or.inl ⟨p0, f0, rfl, Or.inr hw2⟩
    · rintro (⟨p', f', hl, hor⟩ | ⟨hd, hjar⟩)
      · injection hl with hl
        have hp : p0 = p' := congrArg Prod.fst hl
        have hf : f0 = f' := congrArg Prod.snd hl
        rcases hor with hd | hok
        · left
          exact hpr.mpr ⟨hd, fun _ => Or.inl hkey⟩
        · by_cases hd : (dlookup n fs0.dir).isSome = true
          · left
            exact hpr.mpr ⟨hd, fun _ => Or.inl hkey⟩
          · right
            have hok0 : fetchOk env n p0 f0 = true := by
              rw [hp, hf]
              exact hok
            refine ⟨p0, f0, hmem0, ?_, ?_⟩
            · cases hb : (dlookup n (prune env (buildMods m.files) fs0.dir)).isSome
              · rfl
              · exact absurd (hpr.mp hb).1 hd
            · rw [fetchWrites_eq_fetchOk env n p0 f0 (hmid n)]
              exact hok0
      · left
        exact hpr.mpr ⟨hd, fun hj => by rw [hjar] at hj; cases hj⟩

/-- Witness for C1 (amended): with everything succeeding, the desired
`a.jar` is present after a run over a directory holding only `b.txt`. -/
theorem run_name_set_w :
    (dlookup "a.jar" (run envOk fsTxt).fs.dir).isSome = true :=
  (run_name_set envOk fsTxt { hasFilesKey := true, files := [entryA] } "a.jar"
    rfl rfl rfl (fun _ => rfl) (fun _ w h => FetchResp.noConfusion h)).mpr
    (Or.inl ⟨.jint 1, .jint 2, by decide, Or.inr (by decide)⟩)
